import Mathlib

/-!
Verification of the double-buffered waveform streaming engine in
`src/projectoxford/_audio_win32.pyx` (classes `PlaybackDevice` and
`RecordingDevice`, plus the `check_mmresult` error translator).

The Cython module drives a Windows waveform device through two alternating
buffer slots (`hdr1`/`hdr2`, modelled here as `Bool`: `false` = hdr1,
`true` = hdr2).  Device interaction is a sequence of subsystem calls; we
embed each of `play`, `record` and `__cinit__` as a function producing
the list of device calls (`Ev` / `CinitEv`) it performs, driven by the
successive results of the user callback, given as a script list.
Every subsystem call is assumed to return `MMSYSERR_NOERROR` (the device
error paths raise immediately through `check_mmresult` and are modelled
separately by that function); the wait on the completion event is modelled
separately by `waitLoop` below and appears in the traces as a single
`Ev.waitEv` step.
-/

set_option autoImplicit false

namespace Winmm

/-! ### Error translator (`check_mmresult`, lines 104-122) -/

/-- `MMSYSERR_NOERROR` from the Windows SDK headers imported by the module. -/
def MMSYSERR_NOERROR : Nat := 0

/-- `MMSYSERR_INVALHANDLE` from the Windows SDK headers. -/
def MMSYSERR_INVALHANDLE : Nat := 5

/-- `MMSYSERR_NODRIVER` from the Windows SDK headers. -/
def MMSYSERR_NODRIVER : Nat := 6

/-- `MMSYSERR_NOMEM` from the Windows SDK headers. -/
def MMSYSERR_NOMEM : Nat := 7

/-- `WAVERR_STILLPLAYING` from the Windows SDK headers. -/
def WAVERR_STILLPLAYING : Nat := 33

/-- The `ERROR_CODES` dict (lines 104-109), as a lookup function. -/
def ERROR_CODES (r : Nat) : Option String :=
  if r = WAVERR_STILLPLAYING then some "WAVERR_STILLPLAYING"
  else if r = MMSYSERR_INVALHANDLE then some "MMSYSERR_INVALHANDLE"
  else if r = MMSYSERR_NODRIVER then some "MMSYSERR_NODRIVER"
  else if r = MMSYSERR_NOMEM then some "MMSYSERR_NOMEM"
  else none

/-- The structured content of the `OSError` raised by `check_mmresult`
(line 122): the attempted operation, the numeric code, and the name/text
interpolated into the message. -/
structure MMError where
  cause : String
  code : Nat
  name : String
deriving DecidableEq, Repr

/-- `check_mmresult` (lines 111-122).  `devText` models the outcome of the
`waveInGetErrorTextW` / `waveOutGetErrorTextW` call: `some t` when that call
succeeds (`r2 == 0`) with text `t`, `none` when it fails (`r2` nonzero), in
which case the code replaces `msg` by `ERROR_CODES.get(r, 'UNKNOWN_ERROR')`. -/
def check_mmresult (r : Nat) (cause : String) (devText : Option String) :
    Except MMError Unit :=
  if r = MMSYSERR_NOERROR then .ok ()
  else
    match devText with
    | some msg => .error ⟨cause, r, msg⟩
    | none => .error ⟨cause, r, (ERROR_CODES r).getD "UNKNOWN_ERROR"⟩

/-- Modelled from the spec's words for comparison with `check_mmresult`
(refinement check for the name-resolution order): the name "is looked up in
a fixed table of known codes; unrecognized codes resolve to the device's own
human-readable error text if available, else UNKNOWN_ERROR". -/
def claimedErrorName (r : Nat) (devText : Option String) : String :=
  match ERROR_CODES r with
  | some n => n
  | none => devText.getD "UNKNOWN_ERROR"

/-! ### Constructor (`__cinit__`, lines 176-201 and 273-298) -/

/-- `WAVE_FORMAT_PCM` from the Windows SDK headers. -/
def WAVE_FORMAT_PCM : Nat := 1

/-- The `WAVEFORMATEX` struct fields filled in by `__cinit__`. -/
structure WAVEFORMATEX where
  wFormatTag : Nat
  nChannels : Nat
  nSamplesPerSec : Nat
  nAvgBytesPerSec : Nat
  nBlockAlign : Nat
  wBitsPerSample : Nat
  cbSize : Nat
deriving DecidableEq, Repr

/-- The format computed by `__cinit__` (identical field assignments in
`PlaybackDevice.__cinit__`, lines 185-191, and `RecordingDevice.__cinit__`,
lines 282-288).  In the real `windows.h` struct `nChannels`, `nBlockAlign`
and `wBitsPerSample` are 16-bit `WORD`s and `nSamplesPerSec` /
`nAvgBytesPerSec` are 32-bit `DWORD`s (the pyx's `ctypedef int WORD` is
only an extern-declaration hint), so each store truncates the computed
value to the field's width; a value below the width is stored exactly. -/
def cinitFormat (nchannels framerate sampwidth : Nat) : WAVEFORMATEX :=
  { wFormatTag := WAVE_FORMAT_PCM
    nChannels := nchannels % 2 ^ 16
    nSamplesPerSec := framerate % 2 ^ 32
    nAvgBytesPerSec := (sampwidth * nchannels * framerate) % 2 ^ 32
    nBlockAlign := (sampwidth * nchannels) % 2 ^ 16
    wBitsPerSample := (sampwidth * 8) % 2 ^ 16
    cbSize := 0 }

/-- Steps a constructor can perform.  `raiseInvalidFormat` is the
validation failure the specification describes; it is in the vocabulary so
that its absence from the actual constructor trace can be stated. -/
inductive CinitEv
| createEvent
| raiseInvalidFormat
| openDevice (fmt : WAVEFORMATEX)
deriving DecidableEq, Repr

/-- The sequence of steps `__cinit__` performs (both classes):
`CreateEventW`, then `waveOutOpen`/`waveInOpen` with the computed format.
There is no validation step of any kind in the source. -/
def cinitTrace (nchannels framerate sampwidth : Nat) : List CinitEv :=
  [CinitEv.createEvent, CinitEv.openDevice (cinitFormat nchannels framerate sampwidth)]

/-! ### The inner completion-wait loop (lines 260-264 and 345-349)

```
while True:
    with nogil:
        r = WaitForSingleObject(self._c_evt, 500)
    if r != 0 or (phdr.dwFlags & 1) == 1:
        break
```

Each iteration observes a pair: the `WaitForSingleObject` return value `r`
(0 = signaled, nonzero = timeout/failure) and the current header's
`dwFlags` at the moment of the check.  `waitLoop` maps the list of
successive observations to the index of the iteration at which the loop
breaks (`none` if the observation list is exhausted without a break). -/

def waitLoop : List (Nat × Nat) → Option Nat
  | [] => none
  | (r, flags) :: rest =>
    if r ≠ 0 ∨ flags &&& 1 = 1 then some 0
    else (waitLoop rest).map (· + 1)

/-! ### Streaming traces -/

/-- Device/ callback steps performed by `play` and `record`, in order.
Slots: `false` = `hdr1`/`data1`, `true` = `hdr2`/`data2`. -/
inductive Ev
| prepareWrite (slot : Bool) (len : Nat)
| unprepareOut (slot : Bool)
| resetOut
| prepareAdd (slot : Bool) (len : Nat)
| unprepareIn (slot : Bool)
| resetIn
| startIn
| stopIn
| waitEv (slot : Bool)
| consumeCall (slot : Bool) (len : Nat)
deriving DecidableEq, Repr

/-- One result of the playback producer `get_data`: it raises, or returns
data (`[]` standing for `None` / an empty buffer, both falsy). -/
inductive CbResult
| raiseErr
| ret (data : List Nat)
deriving DecidableEq, Repr

/-- One result of the recording consumer `on_chunk`: it raises, or returns
a value whose truthiness is `b`. -/
inductive CbBool
| raiseErr
| ret (b : Bool)
deriving DecidableEq, Repr

/-- How a `play`/`record` call ends: normal return, a callback exception
propagating, or the finite script ran out before the loop ended (a model
artifact, never reached by the theorems below). -/
inductive StreamResult
| done
| raised
| scriptEnded
deriving DecidableEq, Repr

/-- The `while not exit` loop of `PlaybackDevice.play` (lines 239-266).
At the top of an iteration the code swaps `phdr`/`pnext_hdr`; `sub` is the
slot holding the buffer submitted most recently (so after the swap it is
`phdr`, the in-flight buffer waited on this iteration).  The script holds
the successive results of `get_data` from the second call on.  Per
iteration: call `get_data` (on raise: `waveOutReset`, then unprepare the
in-flight slot, propagate); if data is non-empty, prepare+write it into the
other slot; wait on `sub`; unprepare `sub`; stop if data was empty. -/
def playLoop : List CbResult → Bool → List Ev × StreamResult
  | [], _ => ([], .scriptEnded)
  | CbResult.raiseErr :: _, sub => ([Ev.resetOut, Ev.unprepareOut sub], .raised)
  | CbResult.ret data :: rest, sub =>
    if data.isEmpty then
      ([Ev.waitEv sub, Ev.unprepareOut sub], .done)
    else
      let p := playLoop rest (!sub)
      (Ev.prepareWrite (!sub) data.length :: Ev.waitEv sub :: Ev.unprepareOut sub :: p.1, p.2)

/-- `PlaybackDevice.play` (lines 210-266).  The script holds the successive
results of `get_data`.  The first call happens before any device
interaction: if it raises the error propagates immediately; if it returns
empty data, `play` returns with no device interaction.  Otherwise the first
chunk is prepared+written into `hdr2` (`pnext_hdr` initially points at
`hdr2`) and the loop runs. -/
def play : List CbResult → List Ev × StreamResult
  | [] => ([], .scriptEnded)
  | CbResult.raiseErr :: _ => ([], .raised)
  | CbResult.ret data :: rest =>
    if data.isEmpty then ([], .done)
    else
      let p := playLoop rest true
      (Ev.prepareWrite true data.length :: p.1, p.2)

/-- The `while another` loop of `RecordingDevice.record` (lines 341-363).
`cur` is the slot `phdr` points at (whose region is `data1`).  Per
iteration: prepare+add the other slot; wait on `cur`; call
`on_chunk(data1)`; in the `finally`, unprepare `cur`, and if the call
raised also `waveInReset` and unprepare the other slot before propagating;
on a normal `False` the loop ends (having unprepared only `cur`). -/
def recordLoop (len : Nat) : List CbBool → Bool → List Ev × StreamResult
  | [], _ => ([], .scriptEnded)
  | CbBool.raiseErr :: _, cur =>
    ([Ev.prepareAdd (!cur) len, Ev.waitEv cur, Ev.consumeCall cur len,
      Ev.unprepareIn cur, Ev.resetIn, Ev.unprepareIn (!cur)], .raised)
  | CbBool.ret b :: rest, cur =>
    if b then
      let p := recordLoop len rest (!cur)
      (Ev.prepareAdd (!cur) len :: Ev.waitEv cur :: Ev.consumeCall cur len ::
        Ev.unprepareIn cur :: p.1, p.2)
    else
      ([Ev.prepareAdd (!cur) len, Ev.waitEv cur, Ev.consumeCall cur len,
        Ev.unprepareIn cur], .done)

/-- `RecordingDevice.record` (lines 307-366).  Both data regions are
`bytearray(self._c_fmt.nBlockAlign * samples)`.  `hdr1` (slot `false`) is
prepared+added first, the device is started, the loop runs, and the outer
`finally` performs `waveInStop` on every exit path.  The script holds the
successive results of `on_chunk`. -/
def record (samples blockAlign : Nat) (script : List CbBool) : List Ev × StreamResult :=
  let len := blockAlign * samples
  let p := recordLoop len script false
  (Ev.prepareAdd false len :: Ev.startIn :: (p.1 ++ [Ev.stopIn]), p.2)

/-! ### Trace observations -/

/-- Number of `waveInPrepareHeader`+`waveInAddBuffer` submissions in a trace. -/
def countPrepIn : List Ev → Nat
  | [] => 0
  | Ev.prepareAdd _ _ :: l => countPrepIn l + 1
  | _ :: l => countPrepIn l

/-- Number of `on_chunk` invocations in a trace. -/
def countConsume : List Ev → Nat
  | [] => 0
  | Ev.consumeCall _ _ :: l => countConsume l + 1
  | _ :: l => countConsume l

/-- Input-side submissions of a given slot. -/
def prepInCount (s : Bool) : List Ev → Nat
  | [] => 0
  | Ev.prepareAdd s' _ :: l => (if s' = s then 1 else 0) + prepInCount s l
  | _ :: l => prepInCount s l

/-- Input-side unpreparations of a given slot. -/
def unpInCount (s : Bool) : List Ev → Nat
  | [] => 0
  | Ev.unprepareIn s' :: l => (if s' = s then 1 else 0) + unpInCount s l
  | _ :: l => unpInCount s l

/-- Output-side submissions of a given slot. -/
def prepOutCount (s : Bool) : List Ev → Nat
  | [] => 0
  | Ev.prepareWrite s' _ :: l => (if s' = s then 1 else 0) + prepOutCount s l
  | _ :: l => prepOutCount s l

/-- Output-side unpreparations of a given slot. -/
def unpOutCount (s : Bool) : List Ev → Nat
  | [] => 0
  | Ev.unprepareOut s' :: l => (if s' = s then 1 else 0) + unpOutCount s l
  | _ :: l => unpOutCount s l

/-- The slots written to the output device, in submission order. -/
def subSlots : List Ev → List Bool
  | [] => []
  | Ev.prepareWrite s _ :: l => s :: subSlots l
  | _ :: l => subSlots l

/-- The slots unprepared on the output device, in order. -/
def unpSlots : List Ev → List Bool
  | [] => []
  | Ev.unprepareOut s :: l => s :: unpSlots l
  | _ :: l => unpSlots l

/-- The slots handed to `on_chunk`, in invocation order. -/
def consumeSlots : List Ev → List Bool
  | [] => []
  | Ev.consumeCall s _ :: l => s :: consumeSlots l
  | _ :: l => consumeSlots l

/-- Contribution of one step to the number of input buffers outstanding
(prepared+queued and not yet unprepared). -/
def evDeltaIn : Ev → Int
  | Ev.prepareAdd _ _ => 1
  | Ev.unprepareIn _ => -1
  | _ => 0

/-- Input buffers outstanding after a trace. -/
def inBal : List Ev → Int
  | [] => 0
  | e :: l => evDeltaIn e + inBal l

/-- The strictly alternating slot sequence of a given length starting with
a given slot. -/
def altSlots : Bool → Nat → List Bool
  | _, 0 => []
  | b, n + 1 => b :: altSlots (!b) n

/-- Checks that a list of booleans strictly alternates starting with `b`. -/
def altern : Bool → List Bool → Bool
  | _, [] => true
  | b, x :: rest => (x == b) && altern (!b) rest

/-- The input-side story of one slot's data region: `true` for each
submission of that region to the device (`prepareAdd`, after which the
device overwrites it), `false` for each hand-off of that region to
`on_chunk` (`consumeCall`). -/
def slotStory (s : Bool) : List Ev → List Bool
  | [] => []
  | Ev.prepareAdd s' _ :: l => if s' = s then true :: slotStory s l else slotStory s l
  | Ev.consumeCall s' _ :: l => if s' = s then false :: slotStory s l else slotStory s l
  | _ :: l => slotStory s l

/-- Relation used to state that every wait is immediately preceded by the
submission of the other slot: unconstrained unless the second step is a
wait. -/
def waitPrecededByPrep (a b : Ev) : Prop :=
  match b with
  | Ev.waitEv c => ∃ l, a = Ev.prepareAdd (!c) l
  | _ => True

/-! ## Claims -/

/-- Claim C9, counterexample: construction accepts nchannels = 256,
sampwidth = 256 (there is no validation), but the product
`sampwidth * nchannels` = 65536 overflows the 16-bit `nBlockAlign` field:
the stored block alignment is 0, not `sampwidth * nchannels`, and the
stored `nAvgBytesPerSec` is not `nBlockAlign * framerate` either — the
derived fields are not computed in exact integer arithmetic. -/
theorem cinit_blockAlign_truncates :
    (cinitFormat 256 8000 256).nBlockAlign = 0 ∧
    256 * 256 ≠ 0 ∧
    (cinitFormat 256 8000 256).nAvgBytesPerSec ≠
      (cinitFormat 256 8000 256).nBlockAlign * 8000 := by decide

/-- Claim C9, amended: the derived fields are the exact products reduced
modulo the stored field widths — `nBlockAlign = (sampwidth * nchannels) %
2^16` (16-bit WORD) and `nAvgBytesPerSec = (sampwidth * nchannels *
framerate) % 2^32` (32-bit DWORD) — and whenever both products fit their
fields (every realistic audio format) the claimed exact identities
`blockAlign = sampleWidthBytes * channels` and
`avgBytesPerSec = blockAlign * sampleRate` hold. -/
theorem cinit_derived_fields_mod (nchannels framerate sampwidth : Nat) :
    (cinitFormat nchannels framerate sampwidth).nBlockAlign =
      (sampwidth * nchannels) % 2 ^ 16 ∧
    (cinitFormat nchannels framerate sampwidth).nAvgBytesPerSec =
      (sampwidth * nchannels * framerate) % 2 ^ 32 ∧
    (sampwidth * nchannels < 2 ^ 16 → sampwidth * nchannels * framerate < 2 ^ 32 →
      (cinitFormat nchannels framerate sampwidth).nBlockAlign = sampwidth * nchannels ∧
      (cinitFormat nchannels framerate sampwidth).nAvgBytesPerSec =
        (cinitFormat nchannels framerate sampwidth).nBlockAlign * framerate) := by
  refine ⟨rfl, rfl, ?_⟩
  intro h1 h2
  constructor
  · show (sampwidth * nchannels) % 2 ^ 16 = sampwidth * nchannels
    exact Nat.mod_eq_of_lt h1
  · show (sampwidth * nchannels * framerate) % 2 ^ 32 =
      (sampwidth * nchannels) % 2 ^ 16 * framerate
    rw [Nat.mod_eq_of_lt h2, Nat.mod_eq_of_lt h1]

/-- Witness for `cinit_derived_fields_mod` at a 16-bit stereo 16 kHz
format, where both products fit their fields and the exact identities
hold. -/
theorem cinit_derived_fields_mod_witness :
    (cinitFormat 2 16000 2).nBlockAlign = 2 * 2 ∧
    (cinitFormat 2 16000 2).nAvgBytesPerSec =
      (cinitFormat 2 16000 2).nBlockAlign * 16000 :=
  (cinit_derived_fields_mod 2 16000 2).2.2 (by decide) (by decide)

/-- Claim C3, counterexample: constructing with zero channels does not raise
any `InvalidFormatError` before opening the device — the constructor trace
proceeds straight to the device-open call with the zero-channel format. -/
theorem cinit_zero_channels_opens_device :
    CinitEv.openDevice (cinitFormat 0 8000 2) ∈ cinitTrace 0 8000 2 ∧
    CinitEv.raiseInvalidFormat ∉ cinitTrace 0 8000 2 := by decide

/-- Claim C3, amended: construction performs no format validation at all;
for every channel count, sample rate and sample width — zero included —
the constructor creates the completion event and then attempts the device
open with the computed format, and never raises an `InvalidFormatError`
before the open. -/
theorem cinit_no_format_validation (nchannels framerate sampwidth : Nat) :
    cinitTrace nchannels framerate sampwidth =
      [CinitEv.createEvent, CinitEv.openDevice (cinitFormat nchannels framerate sampwidth)] ∧
    CinitEv.raiseInvalidFormat ∉ cinitTrace nchannels framerate sampwidth := by
  refine ⟨rfl, ?_⟩
  simp [cinitTrace]

/-- Claim C4, counterexample: for a code that IS in the fixed table
(`WAVERR_STILLPLAYING` = 33) while the device error-text lookup succeeds,
the raised error's name is the device text, not the table name — so the
name is not resolved table-first as the claim states. -/
theorem check_mmresult_device_text_beats_table :
    check_mmresult 33 "write audio data" (some "Still playing") =
      Except.error ⟨"write audio data", 33, "Still playing"⟩ ∧
    claimedErrorName 33 (some "Still playing") = "WAVERR_STILLPLAYING" ∧
    "Still playing" ≠ "WAVERR_STILLPLAYING" :=
  ⟨rfl, rfl, by decide⟩

/-- Claim C4, amended: a `NOERROR` result is a no-op; any other result
raises an error carrying the attempted-operation cause, the numeric code,
and a name resolved device-text-first: the subsystem's own human-readable
error text when that lookup succeeds, otherwise the name from the fixed
table of known codes, defaulting to UNKNOWN_ERROR. -/
theorem check_mmresult_amended (r : Nat) (cause : String) (devText : Option String) :
    check_mmresult MMSYSERR_NOERROR cause devText = Except.ok () ∧
    (r ≠ MMSYSERR_NOERROR →
      check_mmresult r cause devText =
        Except.error ⟨cause, r, devText.getD ((ERROR_CODES r).getD "UNKNOWN_ERROR")⟩) := by
  constructor
  · rfl
  · intro hr
    unfold check_mmresult
    rw [if_neg hr]
    cases devText <;> rfl

/-- Witness for `check_mmresult_amended` at a concrete failing code with no
device text: the name falls back to the table entry for `MMSYSERR_NODRIVER`. -/
theorem check_mmresult_amended_witness :
    check_mmresult 6 "open audio device" none =
      Except.error ⟨"open audio device", 6, "MMSYSERR_NODRIVER"⟩ :=
  (check_mmresult_amended 6 "open audio device" none).2 (by decide)

/-- Claim C1, counterexample: a wait that times out (`WaitForSingleObject`
returning `WAIT_TIMEOUT` = 258, nonzero) makes the loop break immediately
even though the current buffer's completion flag is unset — the loop does
not re-check the flag on timeout, so it can exit (and reach unprepare)
while the flag is unset. -/
theorem wait_loop_timeout_exits_with_flag_unset :
    waitLoop [(258, 0)] = some 0 ∧ ¬ (0 : Nat) &&& 1 = 1 := by decide

/-- Claim C1, amended: the wait loop exits at the first iteration whose
wait result is nonzero (timeout/failure) or whose check of the current
buffer's flag shows it set; a signaled wait (result 0) with the flag unset
triggers another wait, but a timed-out wait exits the loop — and unprepare
is reached — even while the flag is unset. -/
theorem wait_loop_first_exit (obs : List (Nat × Nat)) (i : Nat) :
    waitLoop obs = some i ↔
      (∃ r f, obs[i]? = some (r, f) ∧ (r ≠ 0 ∨ f &&& 1 = 1)) ∧
      (∀ j r f, j < i → obs[j]? = some (r, f) → r = 0 ∧ ¬ f &&& 1 = 1) := by
  induction obs generalizing i with
  | nil => simp [waitLoop]
  | cons o rest ih =>
    obtain ⟨r0, f0⟩ := o
    have h0 : ((r0, f0) :: rest)[0]? = some (r0, f0) := by simp
    rw [waitLoop]
    by_cases hc : r0 ≠ 0 ∨ f0 &&& 1 = 1
    · rw [if_pos hc]
      cases i with
      | zero =>
        constructor
        · intro _
          refine ⟨⟨r0, f0, h0, hc⟩, ?_⟩
          intro j r f hj _
          omega
        · intro _
          rfl
      | succ k =>
        constructor
        · intro h
          simp at h
        · rintro ⟨-, hall⟩
          have := hall 0 r0 f0 (Nat.succ_pos k) h0
          tauto
    · rw [if_neg hc]
      push_neg at hc
      obtain ⟨hr0, hf0⟩ := hc
      cases i with
      | zero =>
        constructor
        · intro h
          rw [Option.map_eq_some'] at h
          obtain ⟨m, -, hm⟩ := h
          omega
        · rintro ⟨⟨r, f, hrf, hor⟩, -⟩
          rw [h0] at hrf
          have hrf' : r0 = r ∧ f0 = f := by simpa using hrf
          obtain ⟨rfl, rfl⟩ := hrf'
          rcases hor with h | h
          · exact absurd hr0 h
          · exact absurd h hf0
      | succ k =>
        have hmap : (waitLoop rest).map (· + 1) = some (k + 1) ↔ waitLoop rest = some k := by
          rw [Option.map_eq_some']
          constructor
          · rintro ⟨m, hm, hmk⟩
            have : m = k := by omega
            subst this
            exact hm
          · intro h
            exact ⟨k, h, rfl⟩
        have hall : (∀ j r f, j < k + 1 → ((r0, f0) :: rest)[j]? = some (r, f) →
              r = 0 ∧ ¬ f &&& 1 = 1) ↔
            (∀ j r f, j < k → rest[j]? = some (r, f) → r = 0 ∧ ¬ f &&& 1 = 1) := by
          constructor
          · intro h j r f hj hget
            exact h (j + 1) r f (by omega) (by simpa using hget)
          · intro h j r f hj hget
            cases j with
            | zero =>
              rw [h0] at hget
              have hget' : r0 = r ∧ f0 = f := by simpa using hget
              obtain ⟨rfl, rfl⟩ := hget'
              exact ⟨hr0, hf0⟩
            | succ j' =>
              exact h j' r f (by omega) (by simpa using hget)
        rw [hmap, ih k, hall]
        simp only [List.getElem?_cons_succ]

/-- Claim C2, code bug: on a normal (voluntary) record exit the next
buffer, pre-queued at the top of the final iteration, is never unprepared.
With the consumer returning falsy on its first invocation, slot `hdr2` is
prepared+added once and unprepared zero times in the whole trace — the
call returns with that buffer still submitted to the device. -/
theorem record_normal_exit_leaves_next_prepared :
    (record 1 1 [CbBool.ret false]).2 = StreamResult.done ∧
    prepInCount true (record 1 1 [CbBool.ret false]).1 = 1 ∧
    unpInCount true (record 1 1 [CbBool.ret false]).1 = 0 := by decide

/-- Claim C7, counterexample: when the playback producer raises on its very
first invocation, no device reset is performed (the claim asserts every
raising invocation triggers a reset); the error still propagates and no
device interaction has occurred. -/
theorem play_first_call_raise_no_reset :
    (play [CbResult.raiseErr]).2 = StreamResult.raised ∧
    Ev.resetOut ∉ (play [CbResult.raiseErr]).1 := by decide

/-! ### Unfolding equations and small facts used by the loop proofs -/

theorem recordLoop_cons_true (len : Nat) (rest : List CbBool) (cur : Bool) :
    recordLoop len (CbBool.ret true :: rest) cur =
      (Ev.prepareAdd (!cur) len :: Ev.waitEv cur :: Ev.consumeCall cur len ::
        Ev.unprepareIn cur :: (recordLoop len rest (!cur)).1,
        (recordLoop len rest (!cur)).2) := rfl

theorem recordLoop_cons_false (len : Nat) (rest : List CbBool) (cur : Bool) :
    recordLoop len (CbBool.ret false :: rest) cur =
      ([Ev.prepareAdd (!cur) len, Ev.waitEv cur, Ev.consumeCall cur len,
        Ev.unprepareIn cur], StreamResult.done) := rfl

theorem countPrepIn_append (l1 l2 : List Ev) :
    countPrepIn (l1 ++ l2) = countPrepIn l1 + countPrepIn l2 := by
  induction l1 with
  | nil => simp [countPrepIn]
  | cons e l ih => cases e <;> simp [countPrepIn, ih] <;> omega

theorem countConsume_append (l1 l2 : List Ev) :
    countConsume (l1 ++ l2) = countConsume l1 + countConsume l2 := by
  induction l1 with
  | nil => simp [countConsume]
  | cons e l ih => cases e <;> simp [countConsume, ih] <;> omega

theorem record_eq (samples blockAlign : Nat) (script : List CbBool) :
    record samples blockAlign script =
      (Ev.prepareAdd false (blockAlign * samples) :: Ev.startIn ::
        ((recordLoop (blockAlign * samples) script false).1 ++ [Ev.stopIn]),
        (recordLoop (blockAlign * samples) script false).2) := rfl

theorem playLoop_cons_ne (data : List Nat) (rest : List CbResult) (sub : Bool)
    (h : data.isEmpty = false) :
    playLoop (CbResult.ret data :: rest) sub =
      (Ev.prepareWrite (!sub) data.length :: Ev.waitEv sub :: Ev.unprepareOut sub ::
        (playLoop rest (!sub)).1, (playLoop rest (!sub)).2) := by
  simp [playLoop, h]

theorem play_cons_ne (data : List Nat) (rest : List CbResult) (h : data.isEmpty = false) :
    play (CbResult.ret data :: rest) =
      (Ev.prepareWrite true data.length :: (playLoop rest true).1, (playLoop rest true).2) := by
  simp [play, h]

theorem altSlots_length (b : Bool) (n : Nat) : (altSlots b n).length = n := by
  induction n generalizing b with
  | zero => rfl
  | succ k ih => simp [altSlots, ih]

/-! ### Claim C5: record submission/invocation counts -/

/-- The `record` loop on a script of `m` continuations followed by one
voluntary stop: it ends normally, submits `m + 1` buffers, invokes the
consumer `m + 1` times, and every consumer invocation carries the full
buffer length. -/
theorem recordLoop_replicate_spec (len m : Nat) :
    ∀ cur : Bool,
      (recordLoop len (List.replicate m (CbBool.ret true) ++ [CbBool.ret false]) cur).2 =
        StreamResult.done ∧
      countPrepIn
        (recordLoop len (List.replicate m (CbBool.ret true) ++ [CbBool.ret false]) cur).1 =
        m + 1 ∧
      countConsume
        (recordLoop len (List.replicate m (CbBool.ret true) ++ [CbBool.ret false]) cur).1 =
        m + 1 ∧
      ∀ s l, Ev.consumeCall s l ∈
          (recordLoop len (List.replicate m (CbBool.ret true) ++ [CbBool.ret false]) cur).1 →
        l = len := by
  induction m with
  | zero =>
    intro cur
    refine ⟨rfl, rfl, rfl, ?_⟩
    intro s l hl
    rw [show List.replicate 0 (CbBool.ret true) ++ [CbBool.ret false] = [CbBool.ret false]
      from rfl, recordLoop_cons_false] at hl
    simp at hl
    exact hl.2
  | succ m ihm =>
    intro cur
    obtain ⟨hres, hprep, hcons, hlen⟩ := ihm (!cur)
    rw [List.replicate_succ, List.cons_append, recordLoop_cons_true]
    refine ⟨hres, ?_, ?_, ?_⟩
    · show countPrepIn
        (recordLoop len (List.replicate m (CbBool.ret true) ++ [CbBool.ret false]) (!cur)).1
          + 1 = m + 1 + 1
      omega
    · show countConsume
        (recordLoop len (List.replicate m (CbBool.ret true) ++ [CbBool.ret false]) (!cur)).1
          + 1 = m + 1 + 1
      omega
    · intro s l hl
      rcases List.mem_cons.mp hl with h | hl
      · exact absurd h (by simp)
      rcases List.mem_cons.mp hl with h | hl
      · exact absurd h (by simp)
      rcases List.mem_cons.mp hl with h | hl
      · simp at h
        exact h.2
      rcases List.mem_cons.mp hl with h | hl
      · exact absurd h (by simp)
      · exact hlen s l hl

/-- Claim C5 (confirmed): for every `k > 0` and consumer returning `true`
on its first `M - 1` invocations and `false` on invocation `M`,
`record(k, consume)` ends normally, submits exactly `M + 1` buffers,
invokes the consumer exactly `M` times, and every invocation receives a
buffer of exactly `k * blockAlign` bytes. -/
theorem record_counts (k blockAlign M : Nat) (hk : 0 < k) (hM : 1 ≤ M) :
    (record k blockAlign (List.replicate (M - 1) (CbBool.ret true) ++ [CbBool.ret false])).2 =
      StreamResult.done ∧
    countPrepIn (record k blockAlign
      (List.replicate (M - 1) (CbBool.ret true) ++ [CbBool.ret false])).1 = M + 1 ∧
    countConsume (record k blockAlign
      (List.replicate (M - 1) (CbBool.ret true) ++ [CbBool.ret false])).1 = M ∧
    ∀ s l, Ev.consumeCall s l ∈ (record k blockAlign
        (List.replicate (M - 1) (CbBool.ret true) ++ [CbBool.ret false])).1 →
      l = k * blockAlign := by
  obtain ⟨hres, hprep, hcons, hlen⟩ := recordLoop_replicate_spec (blockAlign * k) (M - 1) false
  rw [record_eq]
  refine ⟨hres, ?_, ?_, ?_⟩
  · show countPrepIn
      ((recordLoop (blockAlign * k)
        (List.replicate (M - 1) (CbBool.ret true) ++ [CbBool.ret false]) false).1
        ++ [Ev.stopIn]) + 1 = M + 1
    rw [countPrepIn_append]
    show countPrepIn _ + 0 + 1 = M + 1
    omega
  · show countConsume
      ((recordLoop (blockAlign * k)
        (List.replicate (M - 1) (CbBool.ret true) ++ [CbBool.ret false]) false).1
        ++ [Ev.stopIn]) = M
    rw [countConsume_append]
    show countConsume _ + 0 = M
    omega
  · intro s l hl
    rcases List.mem_cons.mp hl with h | hl
    · exact absurd h (by simp)
    rcases List.mem_cons.mp hl with h | hl
    · exact absurd h (by simp)
    rcases List.mem_append.mp hl with h | h
    · rw [hlen s l h]
      exact Nat.mul_comm blockAlign k
    · simp at h

/-- Witness for `record_counts` at `k = 2`, `blockAlign = 4`, `M = 3`. -/
theorem record_counts_witness :
    countPrepIn (record 2 4 (List.replicate 2 (CbBool.ret true) ++ [CbBool.ret false])).1 = 4 ∧
    countConsume (record 2 4 (List.replicate 2 (CbBool.ret true) ++ [CbBool.ret false])).1 = 3 := by
  have h := record_counts 2 4 3 (by decide) (by decide)
  exact ⟨h.2.1, h.2.2.1⟩

/-! ### Claim C6: play submission/unpreparation counts and order -/

/-- The `play` loop on a script of nonempty chunks followed by one empty
chunk: it ends normally and the submitted / unprepared slot sequences
alternate as stated. -/
theorem playLoop_ret_spec (chunks : List (List Nat)) :
    ∀ sub : Bool, (∀ c ∈ chunks, c.isEmpty = false) →
      (playLoop (chunks.map CbResult.ret ++ [CbResult.ret []]) sub).2 = StreamResult.done ∧
      subSlots (playLoop (chunks.map CbResult.ret ++ [CbResult.ret []]) sub).1 =
        altSlots (!sub) chunks.length ∧
      unpSlots (playLoop (chunks.map CbResult.ret ++ [CbResult.ret []]) sub).1 =
        altSlots sub (chunks.length + 1) := by
  induction chunks with
  | nil =>
    intro sub _
    exact ⟨rfl, rfl, rfl⟩
  | cons c cs ih =>
    intro sub hne
    have hc : c.isEmpty = false := hne c (List.mem_cons_self c cs)
    obtain ⟨h1, h2, h3⟩ := ih (!sub) (fun d hd => hne d (List.mem_cons_of_mem c hd))
    rw [List.map_cons, List.cons_append, playLoop_cons_ne c _ sub hc]
    refine ⟨h1, ?_, ?_⟩
    · simp only [List.length_cons]
      rw [show altSlots (!sub) (cs.length + 1) = (!sub) :: altSlots (!(!sub)) cs.length
        from rfl, ← h2]
      rfl
    · simp only [List.length_cons]
      rw [show altSlots sub (cs.length + 1 + 1) = sub :: altSlots (!sub) (cs.length + 1)
        from rfl, ← h3]
      rfl

/-- Claim C6 (confirmed): for every `N ≥ 0` and producer yielding `N`
nonempty chunks then an empty one, `play` returns normally, submits
exactly `N` buffers and unprepares exactly `N` buffers, and the
unpreparation order equals the submission order (both are the alternating
slot sequence starting at `hdr2`); for `N = 0` the trace is empty — no
device interaction at all. -/
theorem play_counts (chunks : List (List Nat)) (hne : ∀ c ∈ chunks, c.isEmpty = false) :
    (play (chunks.map CbResult.ret ++ [CbResult.ret []])).2 = StreamResult.done ∧
    subSlots (play (chunks.map CbResult.ret ++ [CbResult.ret []])).1 =
      altSlots true chunks.length ∧
    unpSlots (play (chunks.map CbResult.ret ++ [CbResult.ret []])).1 =
      altSlots true chunks.length ∧
    (subSlots (play (chunks.map CbResult.ret ++ [CbResult.ret []])).1).length = chunks.length ∧
    (chunks = [] → (play (chunks.map CbResult.ret ++ [CbResult.ret []])).1 = []) := by
  cases chunks with
  | nil => exact ⟨rfl, rfl, rfl, rfl, fun _ => rfl⟩
  | cons c cs =>
    have hc : c.isEmpty = false := hne c (List.mem_cons_self c cs)
    obtain ⟨h1, h2, h3⟩ :=
      playLoop_ret_spec cs true (fun d hd => hne d (List.mem_cons_of_mem c hd))
    rw [List.map_cons, List.cons_append, play_cons_ne c _ hc]
    have hsub : subSlots (Ev.prepareWrite true c.length ::
        (playLoop (cs.map CbResult.ret ++ [CbResult.ret []]) true).1) =
        altSlots true (cs.length + 1) := by
      rw [show altSlots true (cs.length + 1) = true :: altSlots (!true) cs.length from rfl, ← h2]
      rfl
    have hunp : unpSlots (Ev.prepareWrite true c.length ::
        (playLoop (cs.map CbResult.ret ++ [CbResult.ret []]) true).1) =
        altSlots true (cs.length + 1) := by
      rw [← h3]
      rfl
    refine ⟨h1, ?_, ?_, ?_, ?_⟩
    · simpa using hsub
    · simpa using hunp
    · rw [hsub, altSlots_length]
      simp
    · intro h
      exact absurd h (by simp)

/-- Witness for `play_counts` on two chunks: both slot sequences are
`hdr2` then `hdr1`. -/
theorem play_counts_witness :
    subSlots (play [CbResult.ret [7], CbResult.ret [8, 9], CbResult.ret []]).1 = [true, false] ∧
    unpSlots (play [CbResult.ret [7], CbResult.ret [8, 9], CbResult.ret []]).1 = [true, false] := by
  have h := play_counts [[7], [8, 9]] (by decide)
  exact ⟨h.2.1, h.2.2.1⟩

/-! ### Claim C7: cleanup when the callback raises -/

theorem prepInCount_append (s : Bool) (l1 l2 : List Ev) :
    prepInCount s (l1 ++ l2) = prepInCount s l1 + prepInCount s l2 := by
  induction l1 with
  | nil => simp [prepInCount]
  | cons e l ih => cases e <;> simp [prepInCount, ih] <;> omega

theorem unpInCount_append (s : Bool) (l1 l2 : List Ev) :
    unpInCount s (l1 ++ l2) = unpInCount s l1 + unpInCount s l2 := by
  induction l1 with
  | nil => simp [unpInCount]
  | cons e l ih => cases e <;> simp [unpInCount, ih] <;> omega

/-- The `play` loop on a script of nonempty chunks whose next result is a
raise: it ends with the error propagating, contains the device reset, and
unprepares each slot once more than it submits it only for the in-flight
slot. -/
theorem playLoop_raise_spec (chunks : List (List Nat)) :
    ∀ sub : Bool, (∀ c ∈ chunks, c.isEmpty = false) →
      (playLoop (chunks.map CbResult.ret ++ [CbResult.raiseErr]) sub).2 =
        StreamResult.raised ∧
      Ev.resetOut ∈ (playLoop (chunks.map CbResult.ret ++ [CbResult.raiseErr]) sub).1 ∧
      ∀ s, unpOutCount s (playLoop (chunks.map CbResult.ret ++ [CbResult.raiseErr]) sub).1 =
        prepOutCount s (playLoop (chunks.map CbResult.ret ++ [CbResult.raiseErr]) sub).1 +
          (if s = sub then 1 else 0) := by
  induction chunks with
  | nil =>
    intro sub _
    refine ⟨rfl, by simp [playLoop], ?_⟩
    intro s
    show (if sub = s then 1 else 0) + 0 = 0 + (if s = sub then 1 else 0)
    cases s <;> cases sub <;> simp
  | cons c cs ih =>
    intro sub hne
    have hc : c.isEmpty = false := hne c (List.mem_cons_self c cs)
    obtain ⟨h1, h2, h3⟩ := ih (!sub) (fun d hd => hne d (List.mem_cons_of_mem c hd))
    rw [List.map_cons, List.cons_append, playLoop_cons_ne c _ sub hc]
    refine ⟨h1, ?_, ?_⟩
    · exact List.mem_cons_of_mem _ (List.mem_cons_of_mem _ (List.mem_cons_of_mem _ h2))
    · intro s
      have h3s := h3 s
      show (if sub = s then 1 else 0) +
          unpOutCount s (playLoop (cs.map CbResult.ret ++ [CbResult.raiseErr]) (!sub)).1 =
        ((if (!sub) = s then 1 else 0) +
          prepOutCount s (playLoop (cs.map CbResult.ret ++ [CbResult.raiseErr]) (!sub)).1) +
          (if s = sub then 1 else 0)
      rw [h3s]
      cases s <;> cases sub <;> simp <;> omega

/-- The `record` loop on a script of `m` continuations whose next result is
a raise: it ends with the error propagating, contains the device reset,
and unprepares each slot once more than it submits it only for the current
slot. -/
theorem recordLoop_raise_spec (len m : Nat) :
    ∀ cur : Bool,
      (recordLoop len (List.replicate m (CbBool.ret true) ++ [CbBool.raiseErr]) cur).2 =
        StreamResult.raised ∧
      Ev.resetIn ∈
        (recordLoop len (List.replicate m (CbBool.ret true) ++ [CbBool.raiseErr]) cur).1 ∧
      ∀ s, unpInCount s
          (recordLoop len (List.replicate m (CbBool.ret true) ++ [CbBool.raiseErr]) cur).1 =
        prepInCount s
          (recordLoop len (List.replicate m (CbBool.ret true) ++ [CbBool.raiseErr]) cur).1 +
          (if s = cur then 1 else 0) := by
  induction m with
  | zero =>
    intro cur
    refine ⟨rfl, by simp [recordLoop], ?_⟩
    intro s
    show (if cur = s then 1 else 0) + ((if (!cur) = s then 1 else 0) + 0) =
      ((if (!cur) = s then 1 else 0) + 0) + (if s = cur then 1 else 0)
    cases s <;> cases cur <;> simp
  | succ m ihm =>
    intro cur
    obtain ⟨h1, h2, h3⟩ := ihm (!cur)
    rw [List.replicate_succ, List.cons_append, recordLoop_cons_true]
    refine ⟨h1, ?_, ?_⟩
    · exact List.mem_cons_of_mem _ (List.mem_cons_of_mem _ (List.mem_cons_of_mem _
        (List.mem_cons_of_mem _ h2)))
    · intro s
      have h3s := h3 s
      show (if cur = s then 1 else 0) +
          unpInCount s (recordLoop len
            (List.replicate m (CbBool.ret true) ++ [CbBool.raiseErr]) (!cur)).1 =
        ((if (!cur) = s then 1 else 0) +
          prepInCount s (recordLoop len
            (List.replicate m (CbBool.ret true) ++ [CbBool.raiseErr]) (!cur)).1) +
          (if s = cur then 1 else 0)
      rw [h3s]
      cases s <;> cases cur <;> simp <;> omega

/-- Claim C7, amended: when the callback raises after at least one buffer
was submitted — any playback producer invocation from the second on, and
every recording consumer invocation — the engine performs a device reset
and unprepares every outstanding slot before the error propagates
unwrapped; the playback producer raising on its very first invocation
propagates the error directly with no device interaction (nothing was
outstanding).  In all cases every submitted slot is unprepared: the
per-slot prepare/unprepare balance of the whole trace is zero. -/
theorem callback_raise_cleanup (chunks : List (List Nat)) (m k ba : Nat)
    (hne : ∀ c ∈ chunks, c.isEmpty = false) :
    ((play (chunks.map CbResult.ret ++ [CbResult.raiseErr])).2 = StreamResult.raised ∧
      (∀ s, prepOutCount s (play (chunks.map CbResult.ret ++ [CbResult.raiseErr])).1 =
        unpOutCount s (play (chunks.map CbResult.ret ++ [CbResult.raiseErr])).1) ∧
      (chunks ≠ [] → Ev.resetOut ∈ (play (chunks.map CbResult.ret ++ [CbResult.raiseErr])).1) ∧
      (chunks = [] → (play (chunks.map CbResult.ret ++ [CbResult.raiseErr])).1 = [])) ∧
    ((record k ba (List.replicate m (CbBool.ret true) ++ [CbBool.raiseErr])).2 =
        StreamResult.raised ∧
      Ev.resetIn ∈ (record k ba (List.replicate m (CbBool.ret true) ++ [CbBool.raiseErr])).1 ∧
      ∀ s, prepInCount s (record k ba (List.replicate m (CbBool.ret true) ++
          [CbBool.raiseErr])).1 =
        unpInCount s (record k ba (List.replicate m (CbBool.ret true) ++
          [CbBool.raiseErr])).1) := by
  constructor
  · cases chunks with
    | nil =>
      refine ⟨rfl, fun s => rfl, ?_, fun _ => rfl⟩
      intro h
      exact absurd rfl h
    | cons c cs =>
      have hc : c.isEmpty = false := hne c (List.mem_cons_self c cs)
      obtain ⟨h1, h2, h3⟩ :=
        playLoop_raise_spec cs true (fun d hd => hne d (List.mem_cons_of_mem c hd))
      rw [List.map_cons, List.cons_append, play_cons_ne c _ hc]
      refine ⟨h1, ?_, fun _ => List.mem_cons_of_mem _ h2, ?_⟩
      · intro s
        have h3s := h3 s
        show (if true = s then 1 else 0) +
            prepOutCount s (playLoop (cs.map CbResult.ret ++ [CbResult.raiseErr]) true).1 =
          unpOutCount s (playLoop (cs.map CbResult.ret ++ [CbResult.raiseErr]) true).1
        rw [h3s]
        cases s <;> simp [Nat.add_comm]
      · intro h
        simp at h
  · obtain ⟨h1, h2, h3⟩ := recordLoop_raise_spec (ba * k) m false
    rw [record_eq]
    refine ⟨h1, ?_, ?_⟩
    · exact List.mem_cons_of_mem _ (List.mem_cons_of_mem _ (List.mem_append_left _ h2))
    · intro s
      have h3s := h3 s
      show (if false = s then 1 else 0) + prepInCount s
          ((recordLoop (ba * k) (List.replicate m (CbBool.ret true) ++
            [CbBool.raiseErr]) false).1 ++ [Ev.stopIn]) =
        unpInCount s ((recordLoop (ba * k) (List.replicate m (CbBool.ret true) ++
          [CbBool.raiseErr]) false).1 ++ [Ev.stopIn])
      rw [prepInCount_append, unpInCount_append, h3s]
      cases s <;> simp [prepInCount, unpInCount, Nat.add_comm]

/-- Witness for `callback_raise_cleanup`: one successful playback chunk
then a raise, and a recording consumer that raises on its first
invocation. -/
theorem callback_raise_cleanup_witness :
    (play [CbResult.ret [1], CbResult.raiseErr]).2 = StreamResult.raised ∧
    (record 1 1 [CbBool.raiseErr]).2 = StreamResult.raised := by
  have h := callback_raise_cleanup [[1]] 0 1 1 (by decide)
  exact ⟨h.1.1, h.2.1⟩

/-! ### Claim C8: at most two input buffers outstanding, next submitted
before the wait -/

theorem inBal_append (l1 l2 : List Ev) : inBal (l1 ++ l2) = inBal l1 + inBal l2 := by
  induction l1 with
  | nil => simp [inBal]
  | cons e l ih =>
    show evDeltaIn e + inBal (l ++ l2) = evDeltaIn e + inBal l + inBal l2
    rw [ih]
    omega

/-- Relative to the loop entry, the `record` loop never holds more than one
extra submitted-and-not-yet-unprepared input buffer at any prefix of its
trace. -/
theorem recordLoop_take_bal (len : Nat) (script : List CbBool) :
    ∀ (cur : Bool) (n : Nat), inBal ((recordLoop len script cur).1.take n) ≤ 1 := by
  induction script with
  | nil =>
    intro cur n
    simp [recordLoop, inBal]
  | cons r rest ih =>
    intro cur n
    cases r with
    | raiseErr =>
      rcases n with _ | _ | _ | _ | _ | _ | n <;>
        simp only [recordLoop, List.take_succ_cons, List.take_zero, List.take_nil,
          inBal, evDeltaIn] <;> omega
    | ret b =>
      cases b with
      | false =>
        rcases n with _ | _ | _ | _ | n <;>
          simp only [recordLoop_cons_false, List.take_succ_cons, List.take_zero,
            List.take_nil, inBal, evDeltaIn] <;> omega
      | true =>
        rcases n with _ | _ | _ | _ | n
        · simp only [List.take_zero, inBal]
          omega
        · simp only [recordLoop_cons_true, List.take_succ_cons, List.take_zero,
            inBal, evDeltaIn]
          omega
        · simp only [recordLoop_cons_true, List.take_succ_cons, List.take_zero,
            inBal, evDeltaIn]
          omega
        · simp only [recordLoop_cons_true, List.take_succ_cons, List.take_zero,
            inBal, evDeltaIn]
          omega
        · simp only [recordLoop_cons_true, List.take_succ_cons, inBal, evDeltaIn]
          have := ih (!cur) n
          omega

/-- The first step the `record` loop performs is never a wait. -/
theorem recordLoop_head_not_wait (len : Nat) (script : List CbBool) (cur c : Bool) :
    (recordLoop len script cur).1.head? ≠ some (Ev.waitEv c) := by
  cases script with
  | nil => simp [recordLoop]
  | cons r rest =>
    cases r with
    | raiseErr => simp [recordLoop]
    | ret b => cases b <;> simp [recordLoop_cons_true, recordLoop_cons_false]

/-- Every wait in the `record` loop trace is immediately preceded by the
submission of the other slot. -/
theorem recordLoop_chain (len : Nat) (script : List CbBool) :
    ∀ cur : Bool, List.Chain' waitPrecededByPrep (recordLoop len script cur).1 := by
  induction script with
  | nil =>
    intro cur
    simp [recordLoop]
  | cons r rest ih =>
    intro cur
    cases r with
    | raiseErr =>
      refine List.chain'_cons.mpr ⟨⟨len, rfl⟩, ?_⟩
      refine List.chain'_cons.mpr ⟨trivial, ?_⟩
      refine List.chain'_cons.mpr ⟨trivial, ?_⟩
      refine List.chain'_cons.mpr ⟨trivial, ?_⟩
      exact List.chain'_pair.mpr trivial
    | ret b =>
      cases b with
      | false =>
        refine List.chain'_cons.mpr ⟨⟨len, rfl⟩, ?_⟩
        refine List.chain'_cons.mpr ⟨trivial, ?_⟩
        refine List.chain'_cons.mpr ⟨trivial, ?_⟩
        exact List.chain'_singleton _
      | true =>
        rw [recordLoop_cons_true]
        refine List.chain'_cons.mpr ⟨⟨len, rfl⟩, ?_⟩
        refine List.chain'_cons.mpr ⟨trivial, ?_⟩
        refine List.chain'_cons.mpr ⟨trivial, ?_⟩
        refine List.chain'_cons'.mpr ⟨?_, ih (!cur)⟩
        intro e he
        cases e <;> try trivial
        case waitEv c =>
          rw [Option.mem_def] at he
          exact absurd he (recordLoop_head_not_wait len rest (!cur) c)

/-- Claim C8 (confirmed): during every record call at most two input
buffers are outstanding (prepared+queued, not yet unprepared) at any
moment — every prefix of the trace has balance at most 2 — and every wait
on the current buffer is immediately preceded by the submission
(prepare+add) of the other slot, so the device always has a buffer queued
while the engine waits. -/
theorem record_two_outstanding (k ba : Nat) (script : List CbBool) (n : Nat) :
    inBal ((record k ba script).1.take n) ≤ 2 ∧
    List.Chain' waitPrecededByPrep (record k ba script).1 := by
  constructor
  · rw [record_eq]
    rcases n with _ | _ | n
    · simp only [List.take_zero, inBal]
      omega
    · simp only [List.take_succ_cons, List.take_zero, inBal, evDeltaIn]
      omega
    · simp only [List.take_succ_cons, inBal, evDeltaIn]
      rw [List.take_append_eq_append_take, inBal_append]
      have hloop := recordLoop_take_bal (ba * k) script false n
      have hstop : inBal (List.take
          (n - (recordLoop (ba * k) script false).1.length) [Ev.stopIn]) = 0 := by
        rcases n - (recordLoop (ba * k) script false).1.length with _ | m
        · simp [inBal]
        · simp [List.take_succ_cons, inBal, evDeltaIn]
      omega
  · rw [record_eq]
    refine List.chain'_cons.mpr ⟨trivial, ?_⟩
    refine List.chain'_cons'.mpr ⟨?_, ?_⟩
    · intro e he
      cases e <;> try trivial
      case waitEv c =>
        rw [Option.mem_def] at he
        cases hl : (recordLoop (ba * k) script false).1 with
        | nil =>
          rw [hl] at he
          simp at he
        | cons a as =>
          rw [hl] at he
          simp only [List.cons_append, List.head?_cons] at he
          have hnw := recordLoop_head_not_wait (ba * k) script false c
          rw [hl] at hnw
          simp only [List.head?_cons] at hnw
          exact absurd he hnw
    · rw [List.chain'_append]
      refine ⟨recordLoop_chain (ba * k) script false, List.chain'_singleton _, ?_⟩
      intro x hx y hy
      simp only [List.head?_cons, Option.mem_def, Option.some.injEq] at hy
      rw [← hy]
      trivial

/-! ### Claim C10: the consumer alternates between the two fixed regions -/

theorem slotStory_append_stop (s : Bool) (l : List Ev) :
    slotStory s (l ++ [Ev.stopIn]) = slotStory s l := by
  induction l with
  | nil => rfl
  | cons e tail ih => cases e <;> simp [slotStory, ih]

theorem consumeSlots_append_stop (l : List Ev) :
    consumeSlots (l ++ [Ev.stopIn]) = consumeSlots l := by
  induction l with
  | nil => rfl
  | cons e tail ih => cases e <;> simp [consumeSlots, ih]

/-- Indexing into the alternating slot sequence. -/
theorem altSlots_get (b : Bool) (n i : Nat) :
    (altSlots b n)[i]? = if i < n then some (if i % 2 = 0 then b else !b) else none := by
  induction n generalizing b i with
  | zero => simp [altSlots]
  | succ m ih =>
    cases i with
    | zero => simp [altSlots]
    | succ j =>
      rw [show altSlots b (m + 1) = b :: altSlots (!b) m from rfl]
      rw [List.getElem?_cons_succ, ih (!b) j]
      by_cases hj : j < m
      · rw [if_pos hj, if_pos (show j + 1 < m + 1 from by omega)]
        rcases Nat.mod_two_eq_zero_or_one j with h | h
        · rw [if_pos h, if_neg (show ¬ (j + 1) % 2 = 0 from by omega)]
        · rw [if_neg (show ¬ j % 2 = 0 from by omega),
            if_pos (show (j + 1) % 2 = 0 from by omega), Bool.not_not]
      · rw [if_neg hj, if_neg (show ¬ j + 1 < m + 1 from by omega)]

/-- Entries two apart in the alternating sequence are equal. -/
theorem altSlots_period (b : Bool) (n i : Nat) (s s' : Bool)
    (h1 : (altSlots b n)[i]? = some s) (h2 : (altSlots b n)[i + 2]? = some s') :
    s' = s := by
  rw [altSlots_get] at h1 h2
  by_cases hi : i < n
  · rw [if_pos hi] at h1
    by_cases hi2 : i + 2 < n
    · rw [if_pos hi2] at h2
      have hm : (i + 2) % 2 = i % 2 := by omega
      rw [hm] at h2
      injection h1 with h1'
      injection h2 with h2'
      rw [← h1', ← h2']
    · rw [if_neg hi2] at h2
      exact absurd h2 (by simp)
  · rw [if_neg hi] at h1
    exact absurd h1 (by simp)

/-- Per-slot story of the `record` loop: entering with `cur` submitted, the
current slot's region is next handed to the consumer, the other slot's
region is next submitted to the device, and from there each region strictly
alternates between being submitted (overwritten by the device) and being
handed to the consumer; the consumer slots alternate starting with `cur`. -/
theorem recordLoop_story (len : Nat) (script : List CbBool) :
    ∀ cur : Bool,
      altern false (slotStory cur (recordLoop len script cur).1) = true ∧
      altern true (slotStory (!cur) (recordLoop len script cur).1) = true ∧
      consumeSlots (recordLoop len script cur).1 =
        altSlots cur (consumeSlots (recordLoop len script cur).1).length := by
  induction script with
  | nil =>
    intro cur
    exact ⟨rfl, rfl, rfl⟩
  | cons r rest ih =>
    intro cur
    cases r with
    | raiseErr => cases cur <;> exact ⟨rfl, rfl, rfl⟩
    | ret b =>
      cases b with
      | false => cases cur <;> exact ⟨rfl, rfl, rfl⟩
      | true =>
        cases cur
        · obtain ⟨i1, i2, i3⟩ := ih (!false)
          exact ⟨i2, i1, congrArg (List.cons false) i3⟩
        · obtain ⟨i1, i2, i3⟩ := ih (!true)
          exact ⟨i2, i1, congrArg (List.cons true) i3⟩

/-- Claim C10 (confirmed): during every record call the consumer is always
handed one of the same two regions allocated at the start, alternating
between them — the consumed-slot sequence is the strict alternation
starting at `data1`, so invocations `i` and `i + 2` receive the same
region — and each region's event story strictly alternates submission to
the device (which overwrites it) with hand-off to the consumer, beginning
with a submission, so the region any invocation receives is re-submitted
and overwritten before invocation `i + 2` sees it again. -/
theorem record_region_alternation (k ba : Nat) (script : List CbBool) :
    (∀ s, altern true (slotStory s (record k ba script).1) = true) ∧
    consumeSlots (record k ba script).1 =
      altSlots false (consumeSlots (record k ba script).1).length ∧
    (∀ i s s', (consumeSlots (record k ba script).1)[i]? = some s →
      (consumeSlots (record k ba script).1)[i + 2]? = some s' → s' = s) := by
  obtain ⟨i1, i2, i3⟩ := recordLoop_story (ba * k) script false
  have hcs : consumeSlots (record k ba script).1 =
      consumeSlots (recordLoop (ba * k) script false).1 := by
    rw [record_eq]
    show consumeSlots ((recordLoop (ba * k) script false).1 ++ [Ev.stopIn]) = _
    exact consumeSlots_append_stop _
  refine ⟨?_, ?_, ?_⟩
  · intro s
    cases s
    · rw [record_eq]
      show altern false (slotStory false
        ((recordLoop (ba * k) script false).1 ++ [Ev.stopIn])) = true
      rw [slotStory_append_stop]
      exact i1
    · rw [record_eq]
      show altern true (slotStory true
        ((recordLoop (ba * k) script false).1 ++ [Ev.stopIn])) = true
      rw [slotStory_append_stop]
      exact i2
  · rw [hcs]
    exact i3
  · intro i s s' h1 h2
    rw [hcs, i3] at h1 h2
    exact altSlots_period false _ i s s' h1 h2

end Winmm
